import Mathlib

/-!
Verification of the lunatic-rs process/environment bindings.

This file gives a shallow embedding of the pure logic of the library:
spawn-parameter serialization (`params_to_vec` in `src/environment.rs`),
the environment configuration defaults, the module-caching behaviour of
`Environment::spawn`/`spawn_link`, the name/type registry wrappers, and
`TcpListener::bind`'s address loop. Host functions (the lunatic VM side)
are not part of the crate; where a claim depends on them they are
modelled from the spec and marked as such in their doc comments.

Rust strings are embedded as `List Char`, machine integers as `Nat`/`Int`
with explicit reductions modulo `2 ^ w` where wrap-around matters, and
fallible operations as `Except`-style results.
-/

/-- Rust `&str` / `String`, embedded as its character list. -/
abbrev Str := List Char

/-! ## Spawn parameter serialization (`src/environment.rs`, `Param` and `params_to_vec`) -/

/-- The `Param` enum from `src/environment.rs`: `I32(i32)`, `I64(i64)`, `V128(u128)`.
`i32`/`i64` values are embedded as `Int` (range side conditions appear in the
theorems), `u128` as `Nat`. -/
inductive Param where
  | I32 (value : Int)
  | I64 (value : Int)
  | V128 (value : Nat)
  deriving DecidableEq, Repr

/-- Rust `v as u128` for a signed integer `v`: sign extension, i.e. the
representative of `v` modulo `2 ^ 128` in `[0, 2 ^ 128)`. -/
def as_u128 (v : Int) : Nat := (v % (2 : Int) ^ 128).toNat

/-- Rust `u128::to_le_bytes` generalised: the `k` little-endian base-256 digits
of `n`, least significant first. -/
def to_le_bytes : Nat → Nat → List Nat
  | 0, _ => []
  | k + 1, n => n % 256 :: to_le_bytes k (n / 256)

/-- `params_to_vec` from `src/environment.rs`: for each parameter push one tag
byte (`0x7F` for `I32`, `0x7E` for `I64`, `0x7B` for `V128`) and then extend
with the 16 little-endian bytes of the (sign-extended) value. -/
def params_to_vec (params : List Param) : List Nat :=
  params.foldl
    (fun result param =>
      match param with
      | .I32 value => (result ++ [0x7F]) ++ to_le_bytes 16 (as_u128 value)
      | .I64 value => (result ++ [0x7E]) ++ to_le_bytes 16 (as_u128 value)
      | .V128 value => (result ++ [0x7B]) ++ to_le_bytes 16 value)
    []

/-- The 17-byte block contributed by a single parameter. -/
def encodeParam : Param → List Nat
  | .I32 value => 0x7F :: to_le_bytes 16 (as_u128 value)
  | .I64 value => 0x7E :: to_le_bytes 16 (as_u128 value)
  | .V128 value => 0x7B :: to_le_bytes 16 value

/-- The tag byte of a parameter. -/
def paramTag : Param → Nat
  | .I32 _ => 0x7F
  | .I64 _ => 0x7E
  | .V128 _ => 0x7B

/-- The 128-bit payload of a parameter, after the Rust `as u128` cast. -/
def paramPayload : Param → Nat
  | .I32 value => as_u128 value
  | .I64 value => as_u128 value
  | .V128 value => value

/-- The value held by a parameter fits the Rust type it came from
(`i32`, `i64`, `u128` respectively). -/
def paramWF : Param → Bool
  | .I32 value => decide (-(2 : Int) ^ 31 ≤ value) && decide (value < 2 ^ 31)
  | .I64 value => decide (-(2 : Int) ^ 63 ≤ value) && decide (value < 2 ^ 63)
  | .V128 value => decide (value < 2 ^ 128)

lemma to_le_bytes_length (k n : Nat) : (to_le_bytes k n).length = k := by
  induction k generalizing n with
  | zero => rfl
  | succ k ih => simp [to_le_bytes, ih]

lemma foldl_append_encode (params : List Param) (acc : List Nat) :
    params.foldl (fun result param => result ++ encodeParam param) acc
      = acc ++ (params.map encodeParam).flatten := by
  induction params generalizing acc with
  | nil => simp
  | cons p ps ih =>
    simp only [List.foldl_cons, List.map_cons, List.flatten_cons]
    rw [ih, List.append_assoc]

lemma params_to_vec_eq_foldl (params : List Param) :
    params_to_vec params
      = params.foldl (fun result param => result ++ encodeParam param) [] := by
  unfold params_to_vec
  congr 1
  funext result param
  cases param <;> simp [encodeParam]

lemma params_to_vec_eq_join (params : List Param) :
    params_to_vec params = (params.map encodeParam).flatten := by
  rw [params_to_vec_eq_foldl, foldl_append_encode]
  simp

lemma encodeParam_eq (p : Param) :
    encodeParam p = paramTag p :: to_le_bytes 16 (paramPayload p) := by
  cases p <;> rfl

lemma encodeParam_length (p : Param) : (encodeParam p).length = 17 := by
  rw [encodeParam_eq]
  simp [to_le_bytes_length]

lemma to_le_bytes_getD (k n i : Nat) :
    (to_le_bytes k n).getD i 0 = if i < k then n / 256 ^ i % 256 else 0 := by
  induction k generalizing n i with
  | zero => simp [to_le_bytes]
  | succ k ih =>
    cases i with
    | zero => simp [to_le_bytes]
    | succ i =>
      simp only [to_le_bytes, List.getD_cons_succ, ih]
      rw [Nat.div_div_eq_div_mul, ← pow_succ']
      simp [Nat.succ_lt_succ_iff]

lemma to_le_bytes_inj (k : Nat) :
    ∀ a b : Nat, to_le_bytes k a = to_le_bytes k b → a % 256 ^ k = b % 256 ^ k := by
  induction k with
  | zero => intro a b _; simp [Nat.mod_one]
  | succ k ih =>
    intro a b h
    simp only [to_le_bytes, List.cons.injEq] at h
    have h1 : a % 256 = b % 256 := h.1
    have h2 : a / 256 % 256 ^ k = b / 256 % 256 ^ k := ih _ _ h.2
    rw [pow_succ', Nat.mod_mul, Nat.mod_mul, h1, h2]

lemma two_pow_128_eq : (256 : Nat) ^ 16 = 2 ^ 128 := by norm_num

set_option maxRecDepth 4000 in
lemma as_u128_lt (v : Int) : as_u128 v < 2 ^ 128 := by
  unfold as_u128
  have h1 := Int.emod_lt_of_pos v (b := (2 : Int) ^ 128) (by positivity)
  omega

set_option maxRecDepth 4000 in
lemma as_u128_inj (v w : Int)
    (hv1 : -(2 : Int) ^ 63 ≤ v) (hv2 : v < 2 ^ 63)
    (hw1 : -(2 : Int) ^ 63 ≤ w) (hw2 : w < 2 ^ 63)
    (h : as_u128 v = as_u128 w) : v = w := by
  unfold as_u128 at h
  have h1 := Int.emod_lt_of_pos v (b := (2 : Int) ^ 128) (by positivity)
  have h2 := Int.emod_lt_of_pos w (b := (2 : Int) ^ 128) (by positivity)
  have h3 := Int.emod_nonneg v (b := (2 : Int) ^ 128) (by positivity)
  have h4 := Int.emod_nonneg w (b := (2 : Int) ^ 128) (by positivity)
  have h5 := Int.emod_emod_of_dvd v (dvd_refl ((2 : Int) ^ 128))
  omega

lemma encodeParam_inj (p q : Param) (hp : paramWF p = true) (hq : paramWF q = true)
    (h : encodeParam p = encodeParam q) : p = q := by
  have hlt : ∀ x : Int, as_u128 x % 2 ^ 128 = as_u128 x :=
    fun x => Nat.mod_eq_of_lt (as_u128_lt x)
  cases p <;> cases q <;>
    simp only [encodeParam, List.cons.injEq] at h <;>
    first
    | (exact absurd h.1 (by decide))
    | skip
  case I32.I32 v w =>
    simp only [paramWF, Bool.and_eq_true, decide_eq_true_eq] at hp hq
    have := to_le_bytes_inj 16 _ _ h.2
    rw [two_pow_128_eq, hlt, hlt] at this
    have hv2 : v < 2 ^ 63 := by omega
    have hw2 : w < 2 ^ 63 := by omega
    have := as_u128_inj v w (by omega) hv2 (by omega) hw2 this
    simp [this]
  case I64.I64 v w =>
    simp only [paramWF, Bool.and_eq_true, decide_eq_true_eq] at hp hq
    have := to_le_bytes_inj 16 _ _ h.2
    rw [two_pow_128_eq, hlt, hlt] at this
    have := as_u128_inj v w hp.1 hp.2 hq.1 hq.2 this
    simp [this]
  case V128.V128 v w =>
    simp only [paramWF, decide_eq_true_eq] at hp hq
    have := to_le_bytes_inj 16 _ _ h.2
    rw [two_pow_128_eq, Nat.mod_eq_of_lt hp, Nat.mod_eq_of_lt hq] at this
    simp [this]

lemma encode_join_inj :
    ∀ ps qs : List Param, (∀ p ∈ ps, paramWF p = true) → (∀ q ∈ qs, paramWF q = true) →
      (ps.map encodeParam).flatten = (qs.map encodeParam).flatten → ps = qs := by
  intro ps
  induction ps with
  | nil =>
    intro qs _ _ h
    cases qs with
    | nil => rfl
    | cons q qs =>
      exfalso
      rw [List.map_cons, List.flatten_cons, encodeParam_eq] at h
      simp at h
  | cons p ps ih =>
    intro qs hps hqs h
    cases qs with
    | nil =>
      exfalso
      rw [List.map_cons, List.flatten_cons, encodeParam_eq] at h
      simp at h
    | cons q qs =>
      simp only [List.map_cons, List.flatten_cons] at h
      have hlen : (encodeParam p).length = (encodeParam q).length := by
        rw [encodeParam_length, encodeParam_length]
      obtain ⟨h1, h2⟩ := List.append_inj h hlen
      have hpq := encodeParam_inj p q (hps p (by simp)) (hqs q (by simp)) h1
      have hrest := ih qs (fun x hx => hps x (by simp [hx])) (fun x hx => hqs x (by simp [hx])) h2
      rw [hpq, hrest]

lemma params_to_vec_inj (ps qs : List Param)
    (hps : ∀ p ∈ ps, paramWF p = true) (hqs : ∀ q ∈ qs, paramWF q = true)
    (h : params_to_vec ps = params_to_vec qs) : ps = qs := by
  rw [params_to_vec_eq_join, params_to_vec_eq_join] at h
  exact encode_join_inj ps qs hps hqs h

/-! ## Registry (`src/environment.rs`, `RegistryError`, `register_name`,
`unregister_name`, `register_type`, `lookup_name`, `lookup_type`)

The storage and semver logic live in the lunatic host behind
`host_api::process::{register, unregister, lookup}`; they are modelled from
the spec below. The wrappers that build keys and translate host return codes
are translated from `src/environment.rs`. -/

/-- The `RegistryError` enum from `src/environment.rs`. -/
inductive RegistryError where
  | IncorrectSemver
  | IncorrectQuery
  | NotFound
  deriving DecidableEq, Repr

/-- Result of a registry wrapper: `ok`, a typed error, or the
`unreachable!()` arm of the Rust `match` on the host return code. -/
inductive Outcome (A : Type) where
  | ok (a : A)
  | err (e : RegistryError)
  | unreachable
  deriving DecidableEq, Repr

/-- A parsed exact semantic version `major.minor.patch`. -/
abbrev Ver := Nat × Nat × Nat

/-- A registry entry held by the host: key string, parsed version, process id. -/
structure RegEntry where
  key : Str
  ver : Ver
  pid : Nat
  deriving DecidableEq, Repr

abbrev Registry := List RegEntry

/-- Parse a non-empty all-digit string as a natural number. -/
def parseNum (s : Str) : Option Nat :=
  if s = [] then none
  else
    s.foldl
      (fun acc c =>
        match acc with
        | none => none
        | some n => if c.isDigit then some (n * 10 + (c.toNat - 48)) else none)
      (some 0)

/-- Split a string at every `.` character. -/
def splitDots : Str → List Str
  | [] => [[]]
  | c :: rest =>
    if c = '.' then [] :: splitDots rest
    else
      match splitDots rest with
      | [] => [[c]]
      | s :: ss => (c :: s) :: ss

/-- Modelled from the spec: the host's check that a registration `version` is
an exact semantic version, i.e. `major.minor.patch` with numeric components
(`host_api::process::register` returns code 1 otherwise). -/
def parseSemver (s : Str) : Option Ver :=
  match splitDots s with
  | [a, b, c] =>
    match parseNum a, parseNum b, parseNum c with
    | some x, some y, some z => some (x, y, z)
    | _, _, _ => none
  | _ => none

/-- Strict lexicographic order on parsed versions. -/
def verLT (a b : Ver) : Bool :=
  decide (a.1 < b.1) ||
    (decide (a.1 = b.1) &&
      (decide (a.2.1 < b.2.1) || (decide (a.2.1 = b.2.1) && decide (a.2.2 < b.2.2))))

/-- An entry matches a lookup when its key equals the queried key and its
version satisfies the version query. -/
def matchesQ (key : Str) (q : Ver → Bool) (e : RegEntry) : Bool :=
  decide (e.key = key) && q e.ver

/-- Modelled from the spec: among entries matching the key and version query,
the host resolves to one carrying the highest version. -/
def bestEntry (key : Str) (q : Ver → Bool) : Registry → Option RegEntry
  | [] => none
  | e :: rest =>
    match bestEntry key q rest with
    | none => if matchesQ key q e then some e else none
    | some b =>
      if matchesQ key q e then
        if verLT b.ver e.ver then some e else some b
      else some b

/-- Modelled from the spec: `host_api::process::register`. Code 1 when the
version is not an exact semver; otherwise code 0, overwriting any entry
registered under the same key and version (last-writer-wins). -/
def hostRegister (key version : Str) (pid : Nat) (reg : Registry) : Nat × Registry :=
  match parseSemver version with
  | none => (1, reg)
  | some v =>
    (0, RegEntry.mk key v pid :: reg.filter (fun e => !decide (e.key = key ∧ e.ver = v)))

/-- Modelled from the spec: `host_api::process::unregister`. Code 1 when the
version is not an exact semver, code 2 when no entry has that key and version,
otherwise code 0 and the entry is removed. -/
def hostUnregister (key version : Str) (reg : Registry) : Nat × Registry :=
  match parseSemver version with
  | none => (1, reg)
  | some v =>
    if reg.any (fun e => decide (e.key = key ∧ e.ver = v)) then
      (0, reg.filter (fun e => !decide (e.key = key ∧ e.ver = v)))
    else (2, reg)

/-- Modelled from the spec: `host_api::process::lookup`. Code 0 with the
resolved process id when some entry matches, code 2 when none does. -/
def hostLookup (key : Str) (q : Ver → Bool) (reg : Registry) : Nat × Nat :=
  match bestEntry key q reg with
  | some b => (0, b.pid)
  | none => (2, 0)

/-- The key built by `register_type`/`lookup_type` in `src/environment.rs`:
`format!("{}+{}", type_name, name)`. -/
def typedName (type_name name : Str) : Str :=
  type_name ++ '+' :: name

/-- `Environment::register_name` from `src/environment.rs`: host code 0 maps
to `Ok`, code 1 to `Err(IncorrectSemver)`, anything else is `unreachable!()`.
The updated host registry is returned in place of Rust's `Ok(())`. -/
def register_name (name version : Str) (pid : Nat) (reg : Registry) : Outcome Registry :=
  match hostRegister name version pid reg with
  | (0, reg2) => .ok reg2
  | (1, _) => .err .IncorrectSemver
  | _ => .unreachable

/-- `Environment::register_type` from `src/environment.rs`: like
`register_name` but registering under the key `"<Type>+<name>"`. -/
def register_type (type_name name version : Str) (pid : Nat) (reg : Registry) :
    Outcome Registry :=
  match hostRegister (typedName type_name name) version pid reg with
  | (0, reg2) => .ok reg2
  | (1, _) => .err .IncorrectSemver
  | _ => .unreachable

/-- `Environment::unregister_name` from `src/environment.rs`: host code 0 maps
to `Ok`, code 1 to `Err(IncorrectSemver)`, code 2 to `Err(NotFound)`, anything
else is `unreachable!()`. -/
def unregister_name (name version : Str) (reg : Registry) : Outcome Registry :=
  match hostUnregister name version reg with
  | (0, reg2) => .ok reg2
  | (1, _) => .err .IncorrectSemver
  | (2, _) => .err .NotFound
  | _ => .unreachable

/-- `lookup_name` from `src/environment.rs`: host code 0 maps to
`Ok(Some(process))`, code 1 to `Err(IncorrectSemver)`, code 2 to `Ok(None)`,
anything else is `unreachable!()`. -/
def lookup_name (name : Str) (q : Ver → Bool) (reg : Registry) : Outcome (Option Nat) :=
  match hostLookup name q reg with
  | (0, pid) => .ok (some pid)
  | (1, _) => .err .IncorrectSemver
  | (2, _) => .ok none
  | _ => .unreachable

/-- `lookup_type` from `src/environment.rs`: like `lookup_name` but querying
the key `"<Type>+<name>"`. -/
def lookup_type (type_name name : Str) (q : Ver → Bool) (reg : Registry) :
    Outcome (Option Nat) :=
  match hostLookup (typedName type_name name) q reg with
  | (0, pid) => .ok (some pid)
  | (1, _) => .err .IncorrectSemver
  | (2, _) => .ok none
  | _ => .unreachable

/-- A string containing no `+` character (true of Rust type names that make
the `"<Type>+<name>"` key scheme unambiguous). -/
def plusFree (s : Str) : Bool :=
  s.all (fun c => !(c == '+'))

lemma verLT_irrefl (a : Ver) : verLT a a = false := by
  simp [verLT]

lemma verLT_trichotomy (a b : Ver) : verLT a b = true ∨ a = b ∨ verLT b a = true := by
  rcases a with ⟨a1, a2, a3⟩
  rcases b with ⟨b1, b2, b3⟩
  simp only [verLT, Bool.or_eq_true, Bool.and_eq_true, decide_eq_true_eq, Prod.mk.injEq]
  omega

lemma bestEntry_none_iff (key : Str) (q : Ver → Bool) (reg : Registry) :
    bestEntry key q reg = none ↔ ∀ e ∈ reg, matchesQ key q e = false := by
  induction reg with
  | nil => simp [bestEntry]
  | cons e rest ih =>
    cases hbe : bestEntry key q rest with
    | none =>
      have hall := ih.mp hbe
      simp only [bestEntry, hbe]
      by_cases hm : matchesQ key q e = true
      · simp [hm, List.mem_cons]
      · simp only [Bool.not_eq_true] at hm
        simp only [hm, Bool.false_eq_true, if_false, true_iff, List.mem_cons]
        rintro e2 (rfl | he2)
        · exact hm
        · exact hall e2 he2
    | some b =>
      have hb : ¬ (∀ e2 ∈ rest, matchesQ key q e2 = false) := by
        intro hall
        rw [ih.mpr hall] at hbe
        exact Option.noConfusion hbe
      simp only [bestEntry, hbe]
      constructor
      · intro h
        exfalso
        by_cases hm : matchesQ key q e = true
        · rw [if_pos hm] at h
          by_cases hv : verLT b.ver e.ver = true
          · rw [if_pos hv] at h
            exact Option.noConfusion h
          · rw [if_neg hv] at h
            exact Option.noConfusion h
        · rw [if_neg hm] at h
          exact Option.noConfusion h
      · intro hall
        exfalso
        exact hb (fun e2 he2 => hall e2 (List.mem_cons_of_mem _ he2))

lemma verLT_prop (a b : Ver) :
    verLT a b = true ↔
      (a.1 < b.1 ∨ (a.1 = b.1 ∧ (a.2.1 < b.2.1 ∨ (a.2.1 = b.2.1 ∧ a.2.2 < b.2.2)))) := by
  simp [verLT]

lemma verLT_false_of (b0 e e2 : Ver) (h1 : verLT b0 e2 = false) (h2 : verLT b0 e = true) :
    verLT e e2 = false := by
  rw [Bool.eq_false_iff] at h1 ⊢
  simp only [Ne, verLT_prop] at h1 h2 ⊢
  omega

lemma bestEntry_some_spec (key : Str) (q : Ver → Bool) (reg : Registry) (b : RegEntry) :
    bestEntry key q reg = some b →
      b ∈ reg ∧ matchesQ key q b = true ∧
        ∀ e ∈ reg, matchesQ key q e = true → verLT b.ver e.ver = false := by
  induction reg generalizing b with
  | nil => intro h; exact Option.noConfusion h
  | cons e rest ih =>
    intro h
    cases hbe : bestEntry key q rest with
    | none =>
      simp only [bestEntry, hbe] at h
      have hall := (bestEntry_none_iff key q rest).mp hbe
      by_cases hm : matchesQ key q e = true
      · rw [if_pos hm] at h
        obtain rfl : e = b := Option.some.inj h
        refine ⟨List.mem_cons_self _ _, hm, ?_⟩
        intro e2 he2 hm2
        rcases List.mem_cons.mp he2 with rfl | he2
        · exact verLT_irrefl _
        · rw [hall e2 he2] at hm2
          exact Bool.noConfusion hm2
      · rw [if_neg hm] at h
        exact Option.noConfusion h
    | some b0 =>
      simp only [bestEntry, hbe] at h
      obtain ⟨hmem0, hm0, hmax0⟩ := ih b0 hbe
      by_cases hm : matchesQ key q e = true
      · rw [if_pos hm] at h
        by_cases hlt : verLT b0.ver e.ver = true
        · rw [if_pos hlt] at h
          obtain rfl : e = b := Option.some.inj h
          refine ⟨List.mem_cons_self _ _, hm, ?_⟩
          intro e2 he2 hm2
          rcases List.mem_cons.mp he2 with rfl | he2
          · exact verLT_irrefl _
          · exact verLT_false_of b0.ver e.ver e2.ver (hmax0 e2 he2 hm2) hlt
        · rw [if_neg hlt] at h
          obtain rfl : b0 = b := Option.some.inj h
          refine ⟨List.mem_cons_of_mem _ hmem0, hm0, ?_⟩
          intro e2 he2 hm2
          rcases List.mem_cons.mp he2 with rfl | he2
          · exact Bool.eq_false_iff.mpr (fun hc => hlt hc)
          · exact hmax0 e2 he2 hm2
      · rw [if_neg hm] at h
        obtain rfl : b0 = b := Option.some.inj h
        refine ⟨List.mem_cons_of_mem _ hmem0, hm0, ?_⟩
        intro e2 he2 hm2
        rcases List.mem_cons.mp he2 with rfl | he2
        · rw [hm2] at hm; exact absurd rfl hm
        · exact hmax0 e2 he2 hm2

lemma plusFree_cons (c : Char) (s : Str) :
    plusFree (c :: s) = (!(c == '+') && plusFree s) := by
  simp [plusFree]

lemma typedName_inj (t1 n1 t2 n2 : Str) (h1 : plusFree t1 = true) (h2 : plusFree t2 = true)
    (h : typedName t1 n1 = typedName t2 n2) : t1 = t2 ∧ n1 = n2 := by
  induction t1 generalizing t2 with
  | nil =>
    cases t2 with
    | nil =>
      simp only [typedName, List.nil_append, List.cons.injEq] at h
      exact ⟨rfl, h.2⟩
    | cons c t2 =>
      exfalso
      simp only [typedName, List.nil_append, List.cons_append, List.cons.injEq] at h
      rw [plusFree_cons, ← h.1] at h2
      simp at h2
  | cons c t1 ih =>
    cases t2 with
    | nil =>
      exfalso
      simp only [typedName, List.nil_append, List.cons_append, List.cons.injEq] at h
      rw [plusFree_cons, h.1] at h1
      simp at h1
    | cons c2 t2 =>
      simp only [typedName, List.cons_append, List.cons.injEq] at h
      rw [plusFree_cons] at h1 h2
      rw [Bool.and_eq_true] at h1 h2
      obtain ⟨ht1, ht2⟩ := ih t2 h1.2 h2.2 h.2
      exact ⟨by rw [h.1, ht1], ht2⟩

/-! ## Environment configuration (`src/environment.rs`, `EnvConfig`) -/

/-- The observable state of an `EnvConfig`: the two quota fields passed to
`host_api::process::create_config` and the namespaces allowed so far. -/
structure EnvConfig where
  memory_limit : Nat
  compute_budget : Nat
  allowed_namespaces : List Str
  deriving DecidableEq, Repr

/-- `host_api::process::create_config(max_memory, max_fuel)`: a fresh
configuration with the given quotas and no allowed namespaces. -/
def create_config (max_memory max_fuel : Nat) : EnvConfig :=
  EnvConfig.mk max_memory max_fuel []

/-- `EnvConfig::allow_namespace` from `src/environment.rs`. -/
def allow_namespace (cfg : EnvConfig) (namespace2 : Str) : EnvConfig :=
  EnvConfig.mk cfg.memory_limit cfg.compute_budget (namespace2 :: cfg.allowed_namespaces)

/-- `EnvConfig::default` from `src/environment.rs`: 4 Gb
(`0x1_0000_0000` bytes) of memory, compute budget 0 (no compute limit), and
the all-matching namespace prefix `""` allowed. -/
def EnvConfig.default : EnvConfig :=
  allow_namespace (create_config 0x100000000 0) []

/-- Modelled from the spec: a host function is accessible when some allowed
namespace string is a prefix of its fully qualified name; `""` is a prefix of
every name (doc of `EnvConfig::allow_namespace`). -/
def namespaceAllowed (cfg : EnvConfig) (fname : Str) : Bool :=
  cfg.allowed_namespaces.any (fun p => p.isPrefixOf fname)

/-! ## `Environment::spawn`, `Environment::spawn_link`, and
`Environment::add_this_module` (`src/environment.rs`)

The environment's observable state for these methods is its `this_module`
field (`Option` of a module id). Host calls are passed in as oracles: `hostAdd`
is the outcome of `host_api::process::add_this_module`, and `hostSpawn m` the
outcome of spawning from module `m`. Each operation returns its result
together with the updated `this_module` field. -/

/-- `Environment::add_this_module` from `src/environment.rs`: on host success
the returned module is cached in `this_module`; on failure the error is
returned and the field is left unchanged. -/
def add_this_module (hostAdd : Except Nat Nat) (this_module : Option Nat) :
    Except Nat Unit × Option Nat :=
  match hostAdd with
  | .ok mid => (.ok (), some mid)
  | .error e => (.error e, this_module)

/-- `Environment::spawn` from `src/environment.rs`: spawn from the cached
module if there is one, otherwise add the current module first and retry. -/
def env_spawn (hostAdd : Except Nat Nat) (hostSpawn : Nat → Except Nat Nat) :
    Option Nat → Except Nat Nat × Option Nat
  | some m => (hostSpawn m, some m)
  | none =>
    match hostAdd with
    | .ok mid => env_spawn hostAdd hostSpawn (some mid)
    | .error e => (.error e, none)
  termination_by o => if o.isSome then 0 else 1
  decreasing_by simp

/-- `Environment::spawn_link` from `src/environment.rs`: identical control
flow to `env_spawn`, spawning with a link to the parent. -/
def env_spawn_link (hostAdd : Except Nat Nat) (hostSpawnLink : Nat → Except Nat Nat) :
    Option Nat → Except Nat Nat × Option Nat
  | some m => (hostSpawnLink m, some m)
  | none =>
    match hostAdd with
    | .ok mid => env_spawn_link hostAdd hostSpawnLink (some mid)
    | .error e => (.error e, none)
  termination_by o => if o.isSome then 0 else 1
  decreasing_by simp

/-! ## `TcpListener::bind` (`src/net/tcp_listener.rs`)

`host_api::networking::tcp_bind` is an oracle mapping an address to the pair
(return code, value written through the out-pointer): the listener id on
code 0, the error id otherwise. Address resolution (`to_socket_addrs`) is an
oracle too: either an io error or the list of addresses it yields. -/

/-- Result of `TcpListener::bind`: a bound listener, the error propagated by
`?` from `to_socket_addrs`, or the error built from the final value of the
`id` variable after the loop. -/
inductive BindOutcome where
  | ok (listener_id : Nat)
  | resolve_error (e : Nat)
  | bind_error (error_id : Nat)
  deriving DecidableEq, Repr

/-- The `for addr in ...` loop of `TcpListener::bind`: try each address,
returning the listener id on the first host success; the second argument is
the current value of the `id` variable (initially 0), overwritten by every
host call and used for the error after the loop. -/
def tcp_bind_loop (hostBind : A → Nat × Nat) : List A → Nat → BindOutcome
  | [], errId => .bind_error errId
  | a :: rest, _ =>
    let r := hostBind a
    if r.1 = 0 then .ok r.2 else tcp_bind_loop hostBind rest r.2

/-- `TcpListener::bind` from `src/net/tcp_listener.rs`. -/
def tcp_listener_bind (hostBind : A → Nat × Nat) (addrs : Except Nat (List A)) :
    BindOutcome :=
  match addrs with
  | .error e => .resolve_error e
  | .ok l => tcp_bind_loop hostBind l 0

lemma tcp_bind_loop_ok (hostBind : A → Nat × Nat) :
    ∀ (l : List A) (errId lid : Nat), tcp_bind_loop hostBind l errId = .ok lid →
      ∃ a ∈ l, hostBind a = (0, lid) := by
  intro l
  induction l with
  | nil => intro errId lid h; exact BindOutcome.noConfusion h
  | cons a rest ih =>
    intro errId lid h
    simp only [tcp_bind_loop] at h
    by_cases hz : (hostBind a).1 = 0
    · rw [if_pos hz] at h
      obtain hlid : (hostBind a).2 = lid := BindOutcome.ok.inj h
      exact ⟨a, by simp, by rw [Prod.ext_iff]; exact ⟨hz, hlid⟩⟩
    · rw [if_neg hz] at h
      obtain ⟨a2, ha2, hb2⟩ := ih _ _ h
      exact ⟨a2, by simp [ha2], hb2⟩

lemma tcp_bind_loop_all_fail (hostBind : A → Nat × Nat) :
    ∀ (l : List A) (errId : Nat), (∀ a ∈ l, (hostBind a).1 ≠ 0) →
      ∃ eid, tcp_bind_loop hostBind l errId = .bind_error eid := by
  intro l
  induction l with
  | nil => intro errId _; exact ⟨errId, rfl⟩
  | cons a rest ih =>
    intro errId hall
    simp only [tcp_bind_loop]
    rw [if_neg (hall a (by simp))]
    exact ih _ (fun x hx => hall x (by simp [hx]))

/-! ## Claim theorems -/

lemma params_to_vec_length (params : List Param) :
    (params_to_vec params).length = 17 * params.length := by
  rw [params_to_vec_eq_join]
  induction params with
  | nil => simp
  | cons p ps ih =>
    simp only [List.map_cons, List.flatten_cons, List.length_append, List.length_cons, ih,
      encodeParam_length]
    omega

/-- Claim C1: `params_to_vec` produces, for each parameter in call order,
exactly one tag byte followed by 16 little-endian payload bytes — 17 bytes per
parameter, so the total length is 17 times the number of parameters — and the
three primitive kinds are 32-bit integers, 64-bit integers and 128-bit
vectors (the three constructors of `Param`). -/
theorem C1_params_to_vec_format (params : List Param) :
    params_to_vec params = (params.map encodeParam).flatten ∧
    (params_to_vec params).length = 17 * params.length ∧
    (∀ p, encodeParam p = paramTag p :: to_le_bytes 16 (paramPayload p)) ∧
    (∀ p, (encodeParam p).length = 17) ∧
    (∀ n, (to_le_bytes 16 n).length = 16) ∧
    (∀ n i, (to_le_bytes 16 n).getD i 0 = if i < 16 then n / 256 ^ i % 256 else 0) :=
  ⟨params_to_vec_eq_join params, params_to_vec_length params, encodeParam_eq,
    encodeParam_length, fun n => to_le_bytes_length 16 n, fun n i => to_le_bytes_getD 16 n i⟩

/-- Claim C8: on parameter values within the range of their Rust types,
`params_to_vec` is injective — lists differing in length, kind or value
serialize to different byte sequences — and the three kinds carry the
distinct leading tag bytes `0x7F`, `0x7E`, `0x7B`. -/
theorem C8_params_to_vec_injective :
    (∀ ps qs : List Param, (∀ p ∈ ps, paramWF p = true) → (∀ p ∈ qs, paramWF p = true) →
      params_to_vec ps = params_to_vec qs → ps = qs) ∧
    (∀ v, (encodeParam (Param.I32 v)).head? = some 0x7F) ∧
    (∀ v, (encodeParam (Param.I64 v)).head? = some 0x7E) ∧
    (∀ v, (encodeParam (Param.V128 v)).head? = some 0x7B) :=
  ⟨params_to_vec_inj, fun _ => rfl, fun _ => rfl, fun _ => rfl⟩

set_option maxRecDepth 4000 in
theorem C8_witness :
    (∀ p ∈ [Param.I32 (-1), Param.V128 5], paramWF p = true) ∧
    ([Param.I32 (-1), Param.V128 5] : List Param) = [Param.I32 (-1), Param.V128 5] :=
  ⟨by decide, C8_params_to_vec_injective.1 _ _ (by decide) (by decide) rfl⟩

/-- Claim C4: the default environment configuration is unrestricted — the
empty namespace prefix `""` is allowed (hence every host function namespace is
accessible), the per-process memory limit is 4 GB (`0x1_0000_0000` bytes), and
the compute budget is 0, the value meaning no compute cap. -/
theorem C4_default_env_config :
    EnvConfig.default.memory_limit = 0x100000000 ∧
    EnvConfig.default.compute_budget = 0 ∧
    EnvConfig.default.allowed_namespaces = [[]] ∧
    ∀ fname : Str, namespaceAllowed EnvConfig.default fname = true :=
  ⟨rfl, rfl, rfl, fun fname => by cases fname <;> rfl⟩

/-- Claim C5: `register_name` returns `Err(IncorrectSemver)` exactly when the
version string is not an exact semantic version, and `Ok` otherwise; the
result is the wrapper's synchronous return value. -/
theorem C5_register_name_semver (name version : Str) (pid : Nat) (reg : Registry) :
    (register_name name version pid reg = .err .IncorrectSemver ↔
      parseSemver version = none) ∧
    ((∃ reg2, register_name name version pid reg = .ok reg2) ↔
      (parseSemver version).isSome) := by
  unfold register_name hostRegister
  cases h : parseSemver version with
  | none => simp
  | some v => simp

theorem C5_witness :
    register_name ['n'] ['x'] 7 [] = .err .IncorrectSemver ∧
    (∃ reg2, register_name ['n'] ['1', '.', '2', '.', '3'] 7 [] = .ok reg2) :=
  ⟨(C5_register_name_semver ['n'] ['x'] 7 []).1.mpr (by decide),
   (C5_register_name_semver ['n'] ['1', '.', '2', '.', '3'] 7 []).2.mpr (by decide)⟩

/-- Claim C6: when no registration matches the queried name (or typed key)
and version query, `lookup_name` and `lookup_type` return `Ok(None)`, not an
error; when some registration matches, `lookup_name` returns `Ok(Some pid)`
of an entry resolved to the highest version satisfying the query. -/
theorem C6_lookup_resolution (name type_name : Str) (q : Ver → Bool) (reg : Registry) :
    ((∀ e ∈ reg, matchesQ name q e = false) → lookup_name name q reg = .ok none) ∧
    ((∀ e ∈ reg, matchesQ (typedName type_name name) q e = false) →
      lookup_type type_name name q reg = .ok none) ∧
    (∀ e ∈ reg, matchesQ name q e = true →
      ∃ b ∈ reg, matchesQ name q b = true ∧
        lookup_name name q reg = .ok (some b.pid) ∧
        ∀ e2 ∈ reg, matchesQ name q e2 = true →
          (e2.ver = b.ver ∨ verLT e2.ver b.ver = true)) := by
  refine ⟨?_, ?_, ?_⟩
  · intro hall
    unfold lookup_name hostLookup
    rw [(bestEntry_none_iff name q reg).mpr hall]
  · intro hall
    unfold lookup_type hostLookup
    rw [(bestEntry_none_iff (typedName type_name name) q reg).mpr hall]
  · intro e he hme
    cases hbe : bestEntry name q reg with
    | none =>
      exfalso
      rw [(bestEntry_none_iff name q reg).mp hbe e he] at hme
      exact Bool.noConfusion hme
    | some b =>
      obtain ⟨hbm, hbq, hmax⟩ := bestEntry_some_spec name q reg b hbe
      refine ⟨b, hbm, hbq, ?_, ?_⟩
      · unfold lookup_name hostLookup
        rw [hbe]
      · intro e2 he2 hm2
        rcases verLT_trichotomy b.ver e2.ver with h1 | h1 | h1
        · rw [hmax e2 he2 hm2] at h1
          exact Bool.noConfusion h1
        · exact Or.inl h1.symm
        · exact Or.inr h1

theorem C6_witness :
    lookup_name ['a'] (fun _ => false) [] = .ok none ∧
    lookup_type ['T'] ['a'] (fun _ => false) [] = .ok none ∧
    ∃ b ∈ [RegEntry.mk ['a'] (1, 0, 0) 7],
      matchesQ ['a'] (fun _ => true) b = true ∧
      lookup_name ['a'] (fun _ => true) [RegEntry.mk ['a'] (1, 0, 0) 7]
        = .ok (some b.pid) ∧
      ∀ e2 ∈ [RegEntry.mk ['a'] (1, 0, 0) 7], matchesQ ['a'] (fun _ => true) e2 = true →
        (e2.ver = b.ver ∨ verLT e2.ver b.ver = true) :=
  ⟨(C6_lookup_resolution ['a'] ['T'] (fun _ => false) []).1 (by simp),
   (C6_lookup_resolution ['a'] ['T'] (fun _ => false) []).2.1 (by simp),
   (C6_lookup_resolution ['a'] ['T'] (fun _ => true) [RegEntry.mk ['a'] (1, 0, 0) 7]).2.2
     (RegEntry.mk ['a'] (1, 0, 0) 7) (by simp) (by decide)⟩

lemma register_err_only_semver (key version : Str) (pid : Nat) (reg : Registry)
    (e : RegistryError) :
    (match hostRegister key version pid reg with
      | (0, reg2) => Outcome.ok reg2
      | (1, _) => Outcome.err RegistryError.IncorrectSemver
      | _ => Outcome.unreachable) = .err e → e = .IncorrectSemver := by
  unfold hostRegister
  cases h : parseSemver version with
  | none => intro hh; simpa using hh.symm
  | some v => intro hh; simp at hh

lemma lookup_err_never (key : Str) (q : Ver → Bool) (reg : Registry) (e : RegistryError) :
    (match hostLookup key q reg with
      | (0, pid) => Outcome.ok (some pid)
      | (1, _) => Outcome.err RegistryError.IncorrectSemver
      | (2, _) => Outcome.ok none
      | _ => Outcome.unreachable) = .err e → False := by
  unfold hostLookup
  cases h : bestEntry key q reg with
  | none => intro hh; simp at hh
  | some b => intro hh; simp at hh

/-- Claim C7: every error value produced by the five registry wrappers is
`IncorrectSemver` or `NotFound`; the `IncorrectQuery` variant of
`RegistryError` is never returned by any of them. -/
theorem C7_registry_error_values (name version type_name : Str) (pid : Nat)
    (q : Ver → Bool) (reg : Registry) (e : RegistryError) :
    (register_name name version pid reg = .err e ∨
     register_type type_name name version pid reg = .err e ∨
     unregister_name name version reg = .err e ∨
     lookup_name name q reg = .err e ∨
     lookup_type type_name name q reg = .err e) →
      (e = .IncorrectSemver ∨ e = .NotFound) ∧ e ≠ .IncorrectQuery := by
  intro h
  have he : e = .IncorrectSemver ∨ e = .NotFound := by
    rcases h with h | h | h | h | h
    · exact Or.inl (register_err_only_semver name version pid reg e h)
    · exact Or.inl (register_err_only_semver (typedName type_name name) version pid reg e h)
    · unfold unregister_name hostUnregister at h
      cases hp : parseSemver version with
      | none =>
        simp only [hp] at h
        simp at h
        exact Or.inl h.symm
      | some v =>
        simp only [hp] at h
        by_cases ha : reg.any (fun e2 => decide (e2.key = name ∧ e2.ver = v)) = true
        · rw [if_pos ha] at h
          simp at h
        · rw [if_neg ha] at h
          simp at h
          exact Or.inr h.symm
    · exact absurd h (fun hh => lookup_err_never name q reg e hh)
    · exact absurd h (fun hh => lookup_err_never (typedName type_name name) q reg e hh)
  refine ⟨he, ?_⟩
  rcases he with rfl | rfl <;> decide

theorem C7_witness :
    (RegistryError.IncorrectSemver = .IncorrectSemver ∨
      RegistryError.IncorrectSemver = .NotFound) ∧
    RegistryError.IncorrectSemver ≠ .IncorrectQuery :=
  C7_registry_error_values ['n'] ['x'] ['T'] 7 (fun _ => true) []
    RegistryError.IncorrectSemver (Or.inl (by decide))

/-- Claim C3 counterexample: the key scheme `"<Type>+<name>"` is ambiguous
when a declared type name itself contains `'+'`. A process registered by
`register_type` under declared type `"A+B"` and name `"c"` is returned by
`lookup_type` for the different declared type `"A"` (with name `"B+c"`),
because both sides build the same key `"A+B+c"`. -/
theorem C3_counterexample :
    register_type ['A', '+', 'B'] ['c'] ['1', '.', '0', '.', '0'] 42 []
      = .ok [RegEntry.mk ['A', '+', 'B', '+', 'c'] (1, 0, 0) 42] ∧
    lookup_type ['A'] ['B', '+', 'c'] (fun _ => true)
      [RegEntry.mk ['A', '+', 'B', '+', 'c'] (1, 0, 0) 42] = .ok (some 42) ∧
    (['A'] : Str) ≠ ['A', '+', 'B'] := by
  refine ⟨by decide, by decide, by decide⟩

/-- Claim C3 (amended): `register_type` stores the process under the key
`"<Type>+<name>"` and `lookup_type` for type `T` queries exactly that key, so
— provided the declared type names contain no `'+'` character — the key
determines the declared type and `lookup_type` never returns a handle
registered under a different declared type name; plain `lookup_name` queries
the raw name with no type qualification. -/
theorem C3_typed_lookup (t1 n1 t2 n2 name version : Str) (q : Ver → Bool)
    (reg : Registry) (pid : Nat) :
    (plusFree t1 = true → plusFree t2 = true →
      typedName t1 n1 = typedName t2 n2 → t1 = t2 ∧ n1 = n2) ∧
    (∀ reg2, register_type t1 n1 version pid reg = .ok reg2 →
      ∃ v, parseSemver version = some v ∧ RegEntry.mk (typedName t1 n1) v pid ∈ reg2) ∧
    (∀ p, lookup_type t1 n1 q reg = .ok (some p) →
      ∃ b ∈ reg, b.key = typedName t1 n1 ∧ b.pid = p) ∧
    (∀ p, lookup_name name q reg = .ok (some p) →
      ∃ b ∈ reg, b.key = name ∧ b.pid = p) := by
  refine ⟨fun h1 h2 h => typedName_inj t1 n1 t2 n2 h1 h2 h, ?_, ?_, ?_⟩
  · intro reg2 h
    unfold register_type hostRegister at h
    cases hp : parseSemver version with
    | none => simp only [hp] at h; simp at h
    | some v =>
      simp only [hp] at h
      simp only [Outcome.ok.injEq] at h
      exact ⟨v, rfl, by rw [← h]; exact List.mem_cons_self _ _⟩
  · intro p h
    unfold lookup_type hostLookup at h
    cases hbe : bestEntry (typedName t1 n1) q reg with
    | none => simp only [hbe] at h; simp at h
    | some b =>
      simp only [hbe, Outcome.ok.injEq, Option.some.injEq] at h
      obtain ⟨hbm, hbq, _⟩ := bestEntry_some_spec _ q reg b hbe
      rw [matchesQ, Bool.and_eq_true, decide_eq_true_eq] at hbq
      exact ⟨b, hbm, hbq.1, h⟩
  · intro p h
    unfold lookup_name hostLookup at h
    cases hbe : bestEntry name q reg with
    | none => simp only [hbe] at h; simp at h
    | some b =>
      simp only [hbe, Outcome.ok.injEq, Option.some.injEq] at h
      obtain ⟨hbm, hbq, _⟩ := bestEntry_some_spec _ q reg b hbe
      rw [matchesQ, Bool.and_eq_true, decide_eq_true_eq] at hbq
      exact ⟨b, hbm, hbq.1, h⟩

theorem C3_witness :
    ((['T'] : Str) = ['T'] ∧ (['a'] : Str) = ['a']) ∧
    ∃ b ∈ [RegEntry.mk ['T', '+', 'a'] (1, 0, 0) 9],
      b.key = typedName ['T'] ['a'] ∧ b.pid = 9 :=
  ⟨(C3_typed_lookup ['T'] ['a'] ['T'] ['a'] ['n'] ['1', '.', '0', '.', '0']
      (fun _ => true) [RegEntry.mk ['T', '+', 'a'] (1, 0, 0) 9] 9).1
      (by decide) (by decide) rfl,
   (C3_typed_lookup ['T'] ['a'] ['T'] ['a'] ['n'] ['1', '.', '0', '.', '0']
      (fun _ => true) [RegEntry.mk ['T', '+', 'a'] (1, 0, 0) 9] 9).2.2.1 9 (by decide)⟩

/-- Claim C9: `Environment::spawn` and `spawn_link` spawn from the cached
`this_module` when it is set, leaving it unchanged; when it is unset they
first add the currently running module via `add_this_module`, cache it, and
spawn from it; and when adding the module fails the error is returned, the
cache stays empty, and no spawn host call's result is consulted. -/
theorem C9_spawn_caches_module (hostAdd : Except Nat Nat)
    (hostSpawn hostSpawnLink : Nat → Except Nat Nat) :
    (∀ m, env_spawn hostAdd hostSpawn (some m) = (hostSpawn m, some m)) ∧
    (∀ m, env_spawn_link hostAdd hostSpawnLink (some m) = (hostSpawnLink m, some m)) ∧
    (∀ mid, hostAdd = .ok mid →
      add_this_module hostAdd none = (.ok (), some mid) ∧
      env_spawn hostAdd hostSpawn none = (hostSpawn mid, some mid) ∧
      env_spawn_link hostAdd hostSpawnLink none = (hostSpawnLink mid, some mid)) ∧
    (∀ e, hostAdd = .error e →
      add_this_module hostAdd none = (.error e, none) ∧
      (∀ f, env_spawn hostAdd f none = (.error e, none)) ∧
      (∀ f, env_spawn_link hostAdd f none = (.error e, none))) := by
  refine ⟨fun m => by simp [env_spawn], fun m => by simp [env_spawn_link], ?_, ?_⟩
  · intro mid h
    subst h
    exact ⟨rfl, by simp [env_spawn], by simp [env_spawn_link]⟩
  · intro e h
    subst h
    exact ⟨rfl, fun f => by simp [env_spawn], fun f => by simp [env_spawn_link]⟩

theorem C9_witness :
    env_spawn (Except.ok 7) (fun m => Except.ok (m + 1)) none = (Except.ok 8, some 7) :=
  ((C9_spawn_caches_module (Except.ok 7) (fun m => Except.ok (m + 1))
      (fun m => Except.ok (m + 1))).2.2.1 7 rfl).2.1

/-- Claim C10: `TcpListener::bind` returns a listener only when the host bind
call succeeded for one of the addresses yielded by `to_socket_addrs`; when the
iterator yields no addresses the error is built from the initial id value 0,
and when every attempt fails an error (from the last attempt's id) is
returned, never a listener. -/
theorem C10_tcp_listener_bind (hostBind : A → Nat × Nat) (addrs : Except Nat (List A)) :
    (∀ l lid, addrs = .ok l → tcp_listener_bind hostBind addrs = .ok lid →
      ∃ a ∈ l, hostBind a = (0, lid)) ∧
    tcp_listener_bind hostBind (Except.ok ([] : List A)) = .bind_error 0 ∧
    (∀ l, addrs = .ok l → (∀ a ∈ l, (hostBind a).1 ≠ 0) →
      ∃ eid, tcp_listener_bind hostBind addrs = .bind_error eid) := by
  refine ⟨?_, rfl, ?_⟩
  · intro l lid h hb
    subst h
    exact tcp_bind_loop_ok hostBind l 0 lid hb
  · intro l h hall
    subst h
    exact tcp_bind_loop_all_fail hostBind l 0 hall

theorem C10_witness :
    ∃ eid, tcp_listener_bind (fun _ : Nat => (1, 7)) (Except.ok [3]) = .bind_error eid :=
  (C10_tcp_listener_bind (fun _ : Nat => (1, 7)) (Except.ok [3])).2.2 [3] rfl
    (by intro a _; decide)
